import Mathlib

/-!
# CoreSpace deck builder: deck lifecycle and reshuffle state machine

Shallow embedding of the deck engine of `src/deckbuilder.js`: the module
variables `currentDeck`, `currentIndex`, `selectedGames`, `availableCards`,
`allCardTypes` and `selectedCardTypes` become the fields of `State`; every
function and click handler that touches them becomes a function on `State`.

Modelling conventions.
* `Math.random()` is a rational `num / den` with `num < den`; the expression
  `Math.floor(Math.random() * k)` is `Rand.floorMul`.
* `showToast` appends its message to the field `toasts`, so that the notice a
  handler emits can be observed.
* `Array.prototype.splice` follows ECMAScript: the start index is clamped to
  the array and the delete count to what is left after it.
* Reading `currentDeck[currentIndex]` outside the array yields `undefined` in
  JavaScript.  A handler that would store `undefined` in the deck, or read a
  property of it, returns `none`; the cursor invariant shows this never
  happens from the initial state.
* `String.prototype.trim` followed by `toLowerCase` is a parameter
  `trimLower : String → String` of the functions that use it.
-/

namespace DeckBuilder

/-! ## Data model -/

/-- Card record of `cards.json`; `CARD_NAME` is the field `'CARD NAME'`. -/
structure Card where
  CARD_NAME : String
  TYPE : String
  Content : String
  EXPANSION : String
deriving DecidableEq, Repr

/-- Value of one call of `Math.random()`: the rational `num / den` in `[0, 1)`. -/
structure Rand where
  num : Nat
  den : Nat
  lt : num < den

/-- The expression `Math.floor(Math.random() * k)` for an integer `k`. -/
def Rand.floorMul (u : Rand) (k : Int) : Int :=
  ((u.num : Int) * k) / (u.den : Int)

/-- Module state of `deckbuilder.js` together with the log of toast messages. -/
structure State where
  currentDeck : List Card
  currentIndex : Int
  selectedGames : List String
  availableCards : List Card
  allCardTypes : List String
  selectedCardTypes : List String
  toasts : List String
deriving DecidableEq, Repr

/-- Initial values of the module variables (lines 6-13). -/
def State.initial : State :=
  { currentDeck := [], currentIndex := -1, selectedGames := [], availableCards := [],
    allCardTypes := [], selectedCardTypes := [], toasts := [] }

/-- The function `showToast`: the message is recorded. -/
def showToast (s : State) (message : String) : State :=
  { s with toasts := s.toasts ++ [message] }

/-! ## Array primitives -/

/-- Array read `arr[i]`: `none` stands for `undefined`. -/
def arrayGet {α : Type} (arr : List α) (i : Int) : Option α :=
  if 0 ≤ i then arr[i.toNat]? else none

/-- The call `arr.splice(start, deleteCount, ...items)`, returning the array afterwards. -/
def splice {α : Type} (arr : List α) (start : Int) (deleteCount : Int) (items : List α) :
    List α :=
  let len : Int := arr.length
  let actualStart : Int := if start < 0 then max (len + start) 0 else min start len
  let actualDeleteCount : Int := min (max deleteCount 0) (len - actualStart)
  arr.take actualStart.toNat ++ items ++ arr.drop (actualStart + actualDeleteCount).toNat

/-- The destructuring swap `[arr[i], arr[j]] = [arr[j], arr[i]]` for indices inside the
array (the only case `shuffleDeck` produces); other indices leave the list as it is. -/
def swap {α : Type} (arr : List α) (i j : Nat) : List α :=
  match arr[i]?, arr[j]? with
  | some x, some y => (arr.set i y).set j x
  | _, _ => arr

/-! ## Deck generation -/

/-- The loop of `shuffleDeck` from loop index `i` down to `1`, where `draw i` is the value
of `Math.floor(Math.random() * (i + 1))` at loop index `i`. -/
def shuffleLoop {α : Type} (draw : Nat → Nat) : Nat → List α → List α
  | 0, shuffledDeck => shuffledDeck
  | i + 1, shuffledDeck => shuffleLoop draw i (swap shuffledDeck (i + 1) (draw (i + 1)))

/-- The draw made at loop index `i` of `shuffleDeck` on a deck of length `n`, when the
successive calls of `Math.random()` return `rnd 0`, `rnd 1`, ... -/
def drawAt (rnd : Nat → Rand) (n : Nat) (i : Nat) : Nat :=
  ((rnd (n - 1 - i)).floorMul ((i : Int) + 1)).toNat

/-- The function `shuffleDeck`. -/
def shuffleDeck {α : Type} (deck : List α) (rnd : Nat → Rand) : List α :=
  shuffleLoop (drawAt rnd deck.length) (deck.length - 1) deck

/-- Admissible draw sequences of `shuffleDeck` on a deck of length `n`: for each loop index
`i = k + 1` with `k < n - 1`, that is for `i` from `n - 1` down to `1`, a draw `j` with
`0 ≤ j ≤ i`. -/
def Draws (n : Nat) : Type :=
  (k : Fin (n - 1)) → Fin (k.val + 2)

instance (n : Nat) : Fintype (Draws n) :=
  inferInstanceAs (Fintype ((k : Fin (n - 1)) → Fin (k.val + 2)))

/-- The draw of a draw sequence at loop index `i`. -/
def Draws.draw {n : Nat} (js : Draws n) (i : Nat) : Nat :=
  if h : 1 ≤ i ∧ i ≤ n - 1 then (js ⟨i - 1, by omega⟩).val else 0

/-- The function `shuffleDeck` as a function of its draw sequence. -/
def shuffleWith {α : Type} (deck : List α) (js : Draws deck.length) : List α :=
  shuffleLoop js.draw (deck.length - 1) deck

/-- The constant `filteredCards` of `generateDeck`: the available cards whose type is
among the selected card types. -/
def filteredCards (availableCards : List Card) (selectedCardTypes : List String) : List Card :=
  availableCards.filter (fun card => selectedCardTypes.contains card.TYPE)

/-- The function `generateDeck`; `checked type` is the state of the checkbox
`type-${type}` (`checkbox && checkbox.checked`).  The call of `saveConfiguration` reads the
same checkboxes again and so stores the same `selectedCardTypes`. -/
def generateDeck (s : State) (checked : String → Bool) (rnd : Nat → Rand) : State :=
  if s.selectedGames.length = 0 then
    showToast s "Please select at least one expansion."
  else
    let s1 := { s with selectedCardTypes := s.allCardTypes.filter checked }
    if s1.selectedCardTypes.length = 0 then
      showToast s1 "Please select at least one card type."
    else
      let s2 := { s1 with currentIndex := -1 }
      let filtered := filteredCards s2.availableCards s2.selectedCardTypes
      if filtered.length = 0 then
        showToast s2 "No cards available with the selected card types."
      else
        { s2 with currentDeck := shuffleDeck filtered rnd }

/-! ## Navigation -/

/-- Click handler of `prevCard`. -/
def prevCard (s : State) : State :=
  if s.currentIndex > -1 then { s with currentIndex := s.currentIndex - 1 } else s

/-- Click handler of `nextCard`. -/
def nextCard (s : State) : State :=
  if s.currentIndex < (s.currentDeck.length : Int) - 1 then
    { s with currentIndex := s.currentIndex + 1 }
  else s

/-! ## Card actions -/

/-- Identity string of a card: `card['CARD NAME'] + card.Content`. -/
def cardId (card : Card) : String :=
  card.CARD_NAME ++ card.Content

/-- The filter `unseenSameTypeCards` of `replaceActiveCardWithUnseenSameType`. -/
def unseenSameTypeCards (trimLower : String → String) (s : State) (activeCard : Card) :
    List Card :=
  let activeCardType := trimLower activeCard.TYPE
  let allSameTypeCards :=
    s.availableCards.filter (fun card => trimLower card.TYPE == activeCardType)
  let selectedCardIds := s.currentDeck.map cardId
  allSameTypeCards.filter (fun card => !selectedCardIds.contains (cardId card))

/-- The function `replaceActiveCardWithUnseenSameType`. -/
def replaceActiveCardWithUnseenSameType (trimLower : String → String) (s : State)
    (r : Rand) : Option State :=
  match arrayGet s.currentDeck s.currentIndex with
  | none => none
  | some activeCard =>
    let unseen := unseenSameTypeCards trimLower s activeCard
    if unseen.length = 0 then
      some (showToast s "No unseen cards of the same type are available.")
    else
      let randomIndex := r.floorMul unseen.length
      match arrayGet unseen randomIndex with
      | none => none
      | some newCard =>
        some (showToast
          { s with currentDeck := s.currentDeck.set s.currentIndex.toNat newCard }
          "Replaced the active card with a new unseen card of the same type.")

/-- Value of the select `cardAction`, with the parsed content of the input `actionN`
(`none` is `NaN`). -/
inductive CardAction where
  | shuffleAnywhere
  | shuffleTopN (actionN : Option Int)
  | replaceSameType
  | other

/-- The block "Move to the previous card" shared by both shuffle branches. -/
def moveToPreviousCard (s : State) : State :=
  if s.currentIndex > 0 then { s with currentIndex := s.currentIndex - 1 }
  else { s with currentIndex := -1 }

/-- The expression for `insertionIndex` in the branch `shuffleAnywhere`; `deck1` is
`currentDeck` after the active card has been removed. -/
def shuffleAnywhereInsertionIndex (deck1 : List Card) (currentIndex : Int) (r : Rand) : Int :=
  r.floorMul ((deck1.length : Int) - currentIndex) + currentIndex + 1

/-- The expression for `insertionIndex` in the branch `shuffleTopN`. -/
def shuffleTopNInsertionIndex (currentIndex topN : Int) (r : Rand) : Int :=
  let startRange := currentIndex + 1
  let endRange := currentIndex + topN
  r.floorMul (endRange - startRange + 1) + startRange

/-- Click handler of `applyCardAction`. -/
def applyCardAction (trimLower : String → String) (s : State) (cardAction : CardAction)
    (r : Rand) : Option State :=
  if s.currentIndex = -1 then
    some (showToast s "No active card to apply action.")
  else
    match cardAction with
    | .shuffleAnywhere =>
      match arrayGet s.currentDeck s.currentIndex with
      | none => none
      | some activeCard =>
        let deck1 := splice s.currentDeck s.currentIndex 1 []
        let insertionIndex := shuffleAnywhereInsertionIndex deck1 s.currentIndex r
        let deck2 := splice deck1 insertionIndex 0 [activeCard]
        some (moveToPreviousCard
          (showToast { s with currentDeck := deck2 } "Card shuffled back into the deck."))
    | .shuffleTopN none => some (showToast s "Please enter a valid number for N.")
    | .shuffleTopN (some actionN) =>
      if actionN ≤ 0 then
        some (showToast s "Please enter a valid number for N.")
      else
        let remainingCards : Int := (s.currentDeck.length : Int) - (s.currentIndex + 1)
        let topN : Int := if actionN > remainingCards then remainingCards else actionN
        let s1 :=
          if actionN > remainingCards then
            showToast s
              s!"Only {remainingCards} cards remaining. Shuffling into the next {remainingCards} cards."
          else s
        if topN > 0 then
          match arrayGet s1.currentDeck s1.currentIndex with
          | none => none
          | some activeCard =>
            let deck1 := splice s1.currentDeck s1.currentIndex 1 []
            let insertionIndex := shuffleTopNInsertionIndex s1.currentIndex topN r
            let deck2 := splice deck1 insertionIndex 0 [activeCard]
            some (moveToPreviousCard
              (showToast { s1 with currentDeck := deck2 }
                s!"Card shuffled into the next {topN} cards."))
        else
          some (moveToPreviousCard (showToast s1 "No remaining cards to shuffle into."))
    | .replaceSameType => replaceActiveCardWithUnseenSameType trimLower s r
    | .other => some (showToast s "Please select a valid action.")

/-! ## The state machine -/

/-- One user action, with the checkbox state and random draws it consumes. -/
inductive Op where
  | generateDeck (checked : String → Bool) (rnd : Nat → Rand)
  | prevCard
  | nextCard
  | applyCardAction (cardAction : CardAction) (r : Rand)

/-- Effect of one user action. -/
def step (trimLower : String → String) (s : State) : Op → Option State
  | .generateDeck checked rnd => some (generateDeck s checked rnd)
  | .prevCard => some (prevCard s)
  | .nextCard => some (nextCard s)
  | .applyCardAction cardAction r => applyCardAction trimLower s cardAction r

/-- Effect of a finite sequence of user actions, first action first. -/
def run (trimLower : String → String) : State → List Op → Option State
  | s, [] => some s
  | s, op :: ops => (step trimLower s op).bind (fun s1 => run trimLower s1 ops)

/-- The list `arr` after the entry at index `i` is removed and `card` is inserted at index
`j` of what is left; this is what the two `splice` calls of a shuffle branch compute. -/
def reinsertAt {α : Type} (arr : List α) (i j : Nat) (card : α) : List α :=
  (arr.take i ++ arr.drop (i + 1)).take j ++ [card] ++ (arr.take i ++ arr.drop (i + 1)).drop j

/-- Cursor invariant of §3: `-1 ≤ currentIndex ≤ currentDeck.length - 1`. -/
def cursorValid (s : State) : Prop :=
  -1 ≤ s.currentIndex ∧ s.currentIndex ≤ (s.currentDeck.length : Int) - 1

/-! ## Example data (§8 of the specification) -/

/-- Hero card `A` of the end-to-end examples. -/
def cardA : Card := ⟨"A", "Hero", "a.jpg", "Base"⟩

/-- Hero card `B` of the end-to-end examples. -/
def cardB : Card := ⟨"B", "Hero", "b.jpg", "Base"⟩

/-- Villain card `C` of the end-to-end examples. -/
def cardC : Card := ⟨"C", "Villain", "c.jpg", "Base"⟩

/-- The draw `Math.random() = 0.5`. -/
def randHalf : Rand := ⟨1, 2, by decide⟩

/-- State over the example catalog with the given deck and cursor. -/
def exampleState (deck : List Card) (cursor : Int) : State :=
  { currentDeck := deck, currentIndex := cursor, selectedGames := ["Base"],
    availableCards := [cardA, cardB, cardC], allCardTypes := ["Hero", "Villain"],
    selectedCardTypes := ["Hero", "Villain"], toasts := [] }

/-! ## Properties named by the specification -/

/-- The reinsertion property of `shuffleAnywhere` as §4 and §8 state it, for a deck with
cursor `i`: the insertion index computed on the deck after removal lies in `(i, L - 1]`,
and the handler returns a deck that holds the active card at some index `j` with
`i < j ≤ L - 1`. -/
def ReinsertedStrictlyAfter (trimLower : String → String) (s : State) (r : Rand) (i : Nat) :
    Prop :=
  (i : Int) <
      shuffleAnywhereInsertionIndex (splice s.currentDeck s.currentIndex 1 []) s.currentIndex r ∧
    shuffleAnywhereInsertionIndex (splice s.currentDeck s.currentIndex 1 []) s.currentIndex r ≤
      (s.currentDeck.length : Int) - 1 ∧
    ∃ s1 j card, applyCardAction trimLower s .shuffleAnywhere r = some s1 ∧
      s.currentDeck[i]? = some card ∧ i < j ∧ j ≤ s.currentDeck.length - 1 ∧
      s1.currentDeck[j]? = some card

/-- The candidate set of `replaceActiveWithUnseenSameType` in the words of §3 and §4 of
the specification: the available cards whose trimmed, lower-cased type is that of the
active card and whose pair (name, image) is the pair of no card of the current deck. -/
def candidateSetByPair (trimLower : String → String) (s : State) (activeCard : Card) :
    List Card :=
  s.availableCards.filter (fun card =>
    trimLower card.TYPE == trimLower activeCard.TYPE &&
      !(s.currentDeck.any (fun seen =>
        seen.CARD_NAME == card.CARD_NAME && seen.Content == card.Content)))

/-- Active card whose name and image concatenate to `abc`. -/
def cardAbC : Card := ⟨"ab", "Hero", "c", "Base"⟩

/-- Available card, different in name and in image from `cardAbC`, whose name and image
also concatenate to `abc`. -/
def cardABc : Card := ⟨"a", "Hero", "bc", "Base"⟩

/-- State with the deck `[cardAbC]`, the cursor on it, and `cardABc` available. -/
def collisionState : State :=
  { currentDeck := [cardAbC], currentIndex := 0, selectedGames := ["Base"],
    availableCards := [cardABc], allCardTypes := ["Hero"], selectedCardTypes := ["Hero"],
    toasts := [] }

/-! ## Card type selection -/

/-- The call `set.add(value)` on a `Set` of strings kept in insertion order. -/
def setAdd (set : List String) (value : String) : List String :=
  if set.contains value then set else set ++ [value]

/-- The function `generateCardTypeSelection`, with the assignment that
`restoreCardTypeSelection` makes at its end, as far as the module variables go;
`sort` is `Array.prototype.sort` on the array of card types. -/
def generateCardTypeSelection (sort : List String → List String) (s : State) : State :=
  let cardTypesSet := s.availableCards.foldl (fun set card => setAdd set card.TYPE) []
  let s1 := { s with allCardTypes := sort cardTypesSet }
  if s1.selectedCardTypes.length > 0 then s1
  else { s1 with selectedCardTypes := s1.allCardTypes }

/-- State of the module variables that the page keeps: `allCardTypes` is written only by
`generateCardTypeSelection` (line 102), from the cards of `availableCards`, and every call
of `loadAvailableCards`, the only writer of `availableCards`, is followed at once by
`generateCardTypeSelection` (lines 43-46 and 51-52); so every listed card type is the type
of an available card. -/
def typesInStep (s : State) : Prop :=
  ∀ t ∈ s.allCardTypes, ∃ card ∈ s.availableCards, card.TYPE = t

/-! ## Arithmetic of draws and of `splice` -/

theorem Rand.floorMul_nonneg (u : Rand) {k : Int} (hk : 0 ≤ k) : 0 ≤ u.floorMul k :=
  Int.ediv_nonneg (mul_nonneg (Int.ofNat_nonneg _) hk) (Int.ofNat_nonneg _)

theorem Rand.floorMul_lt (u : Rand) {k : Int} (hk : 0 < k) : u.floorMul k < k := by
  have hden : (0 : Int) < u.den := by
    have := u.lt
    omega
  have hlt : (u.num : Int) < u.den := by exact_mod_cast u.lt
  apply Int.ediv_lt_of_lt_mul hden
  exact mul_comm k (u.den : Int) ▸ (mul_lt_mul_of_pos_right hlt hk)

theorem Rand.floorMul_zero (u : Rand) : u.floorMul 0 = 0 := by
  simp [Rand.floorMul]

theorem Rand.floorMul_one (u : Rand) : u.floorMul 1 = 0 := by
  have h1 := u.floorMul_nonneg (k := 1) (by decide)
  have h2 := u.floorMul_lt (k := 1) (by decide)
  omega

theorem splice_remove {α : Type} (arr : List α) (i : Nat) :
    splice arr (i : Int) 1 [] = arr.take i ++ arr.drop (i + 1) := by
  unfold splice
  rcases Nat.lt_or_ge i arr.length with h | h
  · have h1 : (if (i : Int) < 0 then max ((arr.length : Int) + i) 0 else min (i : Int) arr.length)
        = (i : Int) := by
      rw [if_neg (by omega)]; omega
    simp only [h1]
    have h2 : min (max (1 : Int) 0) ((arr.length : Int) - i) = 1 := by omega
    simp only [h2]
    have h3 : ((i : Int) + 1).toNat = i + 1 := by omega
    simp [h3]
  · have h1 : (if (i : Int) < 0 then max ((arr.length : Int) + i) 0 else min (i : Int) arr.length)
        = (arr.length : Int) := by
      rw [if_neg (by omega)]; omega
    simp only [h1]
    have h2 : min (max (1 : Int) 0) ((arr.length : Int) - arr.length) = 0 := by omega
    simp only [h2]
    simp [List.take_of_length_le h, List.drop_of_length_le (show arr.length ≤ i + 1 by omega)]

theorem splice_insert {α : Type} (arr : List α) (j : Nat) (items : List α) :
    splice arr (j : Int) 0 items = arr.take j ++ items ++ arr.drop j := by
  unfold splice
  rcases Nat.lt_or_ge j arr.length with h | h
  · have h1 : (if (j : Int) < 0 then max ((arr.length : Int) + j) 0 else min (j : Int) arr.length)
        = (j : Int) := by
      rw [if_neg (by omega)]; omega
    simp only [h1]
    have h2 : min (max (0 : Int) 0) ((arr.length : Int) - j) = 0 := by omega
    simp only [h2]
    simp
  · have h1 : (if (j : Int) < 0 then max ((arr.length : Int) + j) 0 else min (j : Int) arr.length)
        = (arr.length : Int) := by
      rw [if_neg (by omega)]; omega
    simp only [h1]
    have h2 : min (max (0 : Int) 0) ((arr.length : Int) - arr.length) = 0 := by omega
    simp only [h2]
    simp [List.take_of_length_le h, List.drop_of_length_le h]

/-! ## Normal forms of the card actions -/

theorem arrayGet_natCast {α : Type} (arr : List α) (i : Nat) :
    arrayGet arr (i : Int) = arr[i]? := by
  simp [arrayGet]

theorem arrayGet_eq_some {α : Type} {arr : List α} {i : Int} {a : α}
    (h : arrayGet arr i = some a) : ∃ k : Nat, i = (k : Int) ∧ arr[k]? = some a ∧ k < arr.length := by
  unfold arrayGet at h
  split at h
  · rename_i h0
    refine ⟨i.toNat, by omega, h, ?_⟩
    exact (List.getElem?_eq_some_iff.mp h).1
  · cases h

theorem reinsertAt_length {α : Type} (arr : List α) (i j : Nat) (card : α)
    (h : i < arr.length) : (reinsertAt arr i j card).length = arr.length := by
  simp only [reinsertAt, List.length_append, List.length_take, List.length_drop,
    List.length_cons, List.length_nil]
  omega

theorem reinsertAt_perm {α : Type} (arr : List α) (i j : Nat) (card : α)
    (h : arr[i]? = some card) : (reinsertAt arr i j card).Perm arr := by
  obtain ⟨hi, hget⟩ := List.getElem?_eq_some_iff.mp h
  have hsplit : arr = arr.take i ++ card :: arr.drop (i + 1) := by
    rw [← hget]
    simp
  unfold reinsertAt
  generalize hrest : arr.take i ++ arr.drop (i + 1) = rest
  have h1 : (rest.take j ++ [card] ++ rest.drop j).Perm (card :: rest) := by
    have := @List.perm_middle _ card (rest.take j) (rest.drop j)
    simpa using this
  have h2 : (card :: rest).Perm arr := by
    rw [← hrest]
    conv_rhs => rw [hsplit]
    exact List.perm_middle.symm
  exact h1.trans h2

theorem reinsertAt_getElem {α : Type} (arr : List α) (i j : Nat) (card : α)
    (hi : i < arr.length) (hj : j ≤ arr.length - 1) :
    (reinsertAt arr i j card)[j]? = some card := by
  unfold reinsertAt
  have hlen : (List.take j (arr.take i ++ arr.drop (i + 1))).length = j := by
    simp only [List.length_take, List.length_append, List.length_drop]
    omega
  rw [List.append_assoc, List.getElem?_append_right (by omega)]
  simp [hlen]

theorem reinsertAt_last {α : Type} (arr : List α) (i j : Nat) (card : α)
    (h : arr[i]? = some card) (hi : i + 1 = arr.length) (hj : i ≤ j) :
    reinsertAt arr i j card = arr := by
  obtain ⟨hlt, hget⟩ := List.getElem?_eq_some_iff.mp h
  have hsplit : arr = arr.take i ++ card :: arr.drop (i + 1) := by
    rw [← hget]
    simp
  have hdrop : arr.drop (i + 1) = [] := List.drop_of_length_le (by omega)
  unfold reinsertAt
  rw [hdrop, List.append_nil]
  rw [List.take_of_length_le (by simp; omega), List.drop_of_length_le (by simp; omega)]
  conv_rhs => rw [hsplit, hdrop]
  simp

theorem moveToPreviousCard_currentIndex (s : State) :
    (moveToPreviousCard s).currentIndex = if s.currentIndex > 0 then s.currentIndex - 1 else -1 := by
  unfold moveToPreviousCard
  split <;> rfl

theorem moveToPreviousCard_currentDeck (s : State) :
    (moveToPreviousCard s).currentDeck = s.currentDeck := by
  unfold moveToPreviousCard
  split <;> rfl

theorem shuffleAnywhereInsertionIndex_bounds (deck1 : List Card) (i : Nat) (r : Rand)
    (h : i ≤ deck1.length) :
    (i : Int) + 1 ≤ shuffleAnywhereInsertionIndex deck1 i r ∧
      (i < deck1.length → shuffleAnywhereInsertionIndex deck1 i r ≤ deck1.length) ∧
      (i = deck1.length → shuffleAnywhereInsertionIndex deck1 i r = (i : Int) + 1) := by
  unfold shuffleAnywhereInsertionIndex
  have h0 := r.floorMul_nonneg (k := (deck1.length : Int) - i) (by omega)
  refine ⟨by omega, ?_, ?_⟩
  · intro hlt
    have h1 := r.floorMul_lt (k := (deck1.length : Int) - i) (by omega)
    omega
  · intro heq
    have : (deck1.length : Int) - i = 0 := by omega
    rw [this, Rand.floorMul_zero]
    omega

theorem shuffleTopNInsertionIndex_bounds (i : Nat) (topN : Int) (r : Rand) (h : 0 < topN) :
    (i : Int) + 1 ≤ shuffleTopNInsertionIndex i topN r ∧
      shuffleTopNInsertionIndex i topN r ≤ (i : Int) + topN := by
  unfold shuffleTopNInsertionIndex
  have hk : (i : Int) + topN - (i + 1) + 1 = topN := by omega
  simp only [hk]
  have h0 := r.floorMul_nonneg (k := topN) (by omega)
  have h1 := r.floorMul_lt (k := topN) h
  omega

theorem applyCardAction_shuffleAnywhere (trimLower : String → String) (s : State) (r : Rand)
    (i : Nat) (card : Card) (hi : s.currentIndex = i) (hc : s.currentDeck[i]? = some card) :
    applyCardAction trimLower s .shuffleAnywhere r =
      some (moveToPreviousCard (showToast
        { s with
          currentDeck := reinsertAt s.currentDeck i
            (shuffleAnywhereInsertionIndex (splice s.currentDeck s.currentIndex 1 [])
              s.currentIndex r).toNat card }
        "Card shuffled back into the deck.")) := by
  have hlt : i < s.currentDeck.length := (List.getElem?_eq_some_iff.mp hc).1
  unfold applyCardAction
  rw [if_neg (by omega)]
  simp only [hi, arrayGet_natCast, hc, splice_remove]
  have hb := shuffleAnywhereInsertionIndex_bounds (s.currentDeck.take i ++ s.currentDeck.drop (i + 1))
    i r (by simp; omega)
  have hnn : 0 ≤ shuffleAnywhereInsertionIndex
      (s.currentDeck.take i ++ s.currentDeck.drop (i + 1)) i r := by omega
  conv_lhs => rw [← Int.toNat_of_nonneg hnn, splice_insert]
  rfl

theorem splice_insert_int {α : Type} (arr : List α) (j : Int) (hj : 0 ≤ j) (items : List α) :
    splice arr j 0 items = arr.take j.toNat ++ items ++ arr.drop j.toNat := by
  have h := splice_insert arr j.toNat items
  rwa [Int.toNat_of_nonneg hj] at h

theorem moveToPreviousCard_eq (s : State) :
    moveToPreviousCard s =
      { s with currentIndex := if s.currentIndex > 0 then s.currentIndex - 1 else -1 } := by
  unfold moveToPreviousCard
  split <;> rfl

theorem applyCardAction_shuffleTopN (trimLower : String → String) (s : State) (r : Rand)
    (i : Nat) (card : Card) (n : Int) (hi : s.currentIndex = i)
    (hc : s.currentDeck[i]? = some card) (hn : 0 < n) (hrem : i + 1 < s.currentDeck.length) :
    ∃ ts, applyCardAction trimLower s (.shuffleTopN (some n)) r =
      some { s with
        currentDeck := reinsertAt s.currentDeck i
          (shuffleTopNInsertionIndex i (min n ((s.currentDeck.length : Int) - (i + 1))) r).toNat
          card
        currentIndex := if (i : Int) > 0 then (i : Int) - 1 else -1
        toasts := ts } := by
  unfold applyCardAction
  rw [if_neg (by omega)]
  simp only
  rw [if_neg (by omega)]
  by_cases hgt : n > (s.currentDeck.length : Int) - (s.currentIndex + 1)
  · simp only [if_pos hgt]
    rw [if_pos (by omega)]
    simp only [showToast, hi, arrayGet_natCast, hc, splice_remove]
    have hmin : min n ((s.currentDeck.length : Int) - (i + 1))
        = (s.currentDeck.length : Int) - (i + 1) := by omega
    have hb := shuffleTopNInsertionIndex_bounds i ((s.currentDeck.length : Int) - (i + 1)) r
      (by omega)
    have hnn : 0 ≤ shuffleTopNInsertionIndex i ((s.currentDeck.length : Int) - (i + 1)) r := by
      omega
    rw [splice_insert_int _ _ hnn, hmin, moveToPreviousCard_eq]
    exact ⟨_, rfl⟩
  · simp only [if_neg hgt]
    rw [if_pos (by omega)]
    simp only [showToast, hi, arrayGet_natCast, hc, splice_remove]
    have hmin : min n ((s.currentDeck.length : Int) - (i + 1)) = n := by omega
    have hb := shuffleTopNInsertionIndex_bounds i n r hn
    have hnn : 0 ≤ shuffleTopNInsertionIndex i n r := by omega
    rw [splice_insert_int _ _ hnn, hmin, moveToPreviousCard_eq]
    exact ⟨_, rfl⟩

theorem applyCardAction_shuffleTopN_last (trimLower : String → String) (s : State) (r : Rand)
    (i : Nat) (n : Int) (hi : s.currentIndex = i) (hn : 0 < n)
    (hlast : i + 1 = s.currentDeck.length) :
    ∃ ts, applyCardAction trimLower s (.shuffleTopN (some n)) r =
      some { s with
        currentIndex := if (i : Int) > 0 then (i : Int) - 1 else -1
        toasts := ts } := by
  unfold applyCardAction
  rw [if_neg (by omega)]
  simp only
  rw [if_neg (by omega)]
  have hgt : n > (s.currentDeck.length : Int) - (s.currentIndex + 1) := by omega
  simp only [if_pos hgt]
  rw [if_neg (by omega)]
  simp only [showToast, hi, moveToPreviousCard_eq]
  exact ⟨_, rfl⟩

theorem applyCardAction_shuffleTopN_invalid (trimLower : String → String) (s : State)
    (r : Rand) (actionN : Option Int) (h : ∀ n, actionN = some n → n ≤ 0) :
    applyCardAction trimLower s (.shuffleTopN actionN) r =
      some (showToast s (if s.currentIndex = -1 then "No active card to apply action."
        else "Please enter a valid number for N.")) := by
  unfold applyCardAction
  by_cases h1 : s.currentIndex = -1
  · simp [h1]
  · rw [if_neg h1, if_neg h1]
    cases actionN with
    | none => rfl
    | some n =>
      simp only
      rw [if_pos (h n rfl)]

/-! ## Shuffling and deck generation -/

theorem swap_length {α : Type} (arr : List α) (i j : Nat) :
    (swap arr i j).length = arr.length := by
  unfold swap
  split <;> simp

theorem swap_eq_of_lt {α : Type} (arr : List α) {i j : Nat} (hi : i < arr.length)
    (hj : j < arr.length) : swap arr i j = (arr.set i arr[j]).set j arr[i] := by
  unfold swap
  rw [List.getElem?_eq_getElem hi, List.getElem?_eq_getElem hj]

theorem swap_perm {α : Type} (arr : List α) (i j : Nat) : (swap arr i j).Perm arr := by
  classical
  unfold swap
  split
  · rename_i x y hx hy
    obtain ⟨hi, hxi⟩ := List.getElem?_eq_some_iff.mp hx
    obtain ⟨hj, hyj⟩ := List.getElem?_eq_some_iff.mp hy
    rw [List.perm_iff_count]
    intro b
    have hj2 : j < (arr.set i y).length := by simpa using hj
    have hget : (arr.set i y)[j] = y := by
      rw [List.getElem_set]
      split
      · rfl
      · exact hyj
    rw [List.count_set _ _ _ _ hj2, List.count_set _ _ _ _ hi, hget, hxi]
    have hmem : x = b → 1 ≤ arr.count b := by
      intro hxb
      subst hxb
      exact List.count_pos_iff.mpr (hxi ▸ List.getElem_mem hi)
    by_cases hxb : x = b <;> by_cases hyb : y = b
    · have h1 := hmem hxb
      simp only [hxb, hyb, beq_self_eq_true, if_true]
      omega
    · have h1 := hmem hxb
      have hyb2 : (y == b) = false := by simpa using hyb
      simp only [hxb, hyb2, beq_self_eq_true, if_true, Bool.false_eq_true, if_false]
      omega
    · have hxb2 : (x == b) = false := by simpa using hxb
      simp only [hxb2, hyb, beq_self_eq_true, if_true, Bool.false_eq_true, if_false]
      omega
    · have hxb2 : (x == b) = false := by simpa using hxb
      have hyb2 : (y == b) = false := by simpa using hyb
      simp only [hxb2, hyb2, Bool.false_eq_true, if_false]
      omega
  · exact List.Perm.refl _

theorem shuffleLoop_perm {α : Type} (draw : Nat → Nat) (i : Nat) (deck : List α) :
    (shuffleLoop draw i deck).Perm deck := by
  induction i generalizing deck with
  | zero => exact List.Perm.refl _
  | succ i ih => exact (ih _).trans (swap_perm _ _ _)

theorem shuffleDeck_perm {α : Type} (deck : List α) (rnd : Nat → Rand) :
    (shuffleDeck deck rnd).Perm deck :=
  shuffleLoop_perm _ _ _

theorem drawAt_le (rnd : Nat → Rand) (n i : Nat) : drawAt rnd n i ≤ i := by
  unfold drawAt
  have h0 := (rnd (n - 1 - i)).floorMul_nonneg (k := (i : Int) + 1) (by omega)
  have h1 := (rnd (n - 1 - i)).floorMul_lt (k := (i : Int) + 1) (by omega)
  omega

/-- C2. For a state with at least one selected expansion in which the pool of available
cards filtered by the checked card types is not empty, `generateDeck` with any random
draws sets `currentDeck` to `shuffleDeck` of the pool, which is a permutation of the pool
of the same length, and sets `currentIndex` to `-1`. -/
theorem generateDeck_permutation (s : State) (checked : String → Bool) (rnd : Nat → Rand)
    (hgames : s.selectedGames ≠ [])
    (hpool : filteredCards s.availableCards (s.allCardTypes.filter checked) ≠ []) :
    (generateDeck s checked rnd).currentDeck =
        shuffleDeck (filteredCards s.availableCards (s.allCardTypes.filter checked)) rnd ∧
      (generateDeck s checked rnd).currentDeck.Perm
        (filteredCards s.availableCards (s.allCardTypes.filter checked)) ∧
      (generateDeck s checked rnd).currentDeck.length =
        (filteredCards s.availableCards (s.allCardTypes.filter checked)).length ∧
      (generateDeck s checked rnd).currentIndex = -1 := by
  have htypes : s.allCardTypes.filter checked ≠ [] := by
    intro h
    apply hpool
    simp [filteredCards, h]
  have hgen : generateDeck s checked rnd =
      { s with
        selectedCardTypes := s.allCardTypes.filter checked
        currentIndex := -1
        currentDeck :=
          shuffleDeck (filteredCards s.availableCards (s.allCardTypes.filter checked)) rnd } := by
    unfold generateDeck
    rw [if_neg (by simpa using hgames)]
    simp only
    rw [if_neg (by simpa using htypes), if_neg (by simpa using hpool)]
  rw [hgen]
  exact ⟨rfl, shuffleDeck_perm _ _, (shuffleDeck_perm _ _).length_eq, rfl⟩

/-! ## The cursor invariant -/

theorem unseen_floorMul_get (unseen : List Card) (r : Rand) (h : unseen ≠ []) :
    ∃ newCard, arrayGet unseen (r.floorMul unseen.length) = some newCard ∧ newCard ∈ unseen := by
  have hpos : (0 : Int) < unseen.length := by
    have := List.length_pos.mpr h
    omega
  have h0 := r.floorMul_nonneg (k := (unseen.length : Int)) (by omega)
  have h1 := r.floorMul_lt hpos
  have hlt : (r.floorMul unseen.length).toNat < unseen.length := by omega
  refine ⟨unseen[(r.floorMul unseen.length).toNat], ?_, List.getElem_mem hlt⟩
  unfold arrayGet
  rw [if_pos h0, List.getElem?_eq_getElem hlt]

theorem replaceActiveCardWithUnseenSameType_eq (trimLower : String → String) (s : State)
    (r : Rand) (i : Nat) (activeCard : Card) (hi : s.currentIndex = i)
    (hc : s.currentDeck[i]? = some activeCard) :
    (unseenSameTypeCards trimLower s activeCard = [] ∧
        replaceActiveCardWithUnseenSameType trimLower s r =
          some (showToast s "No unseen cards of the same type are available.")) ∨
      (∃ newCard, newCard ∈ unseenSameTypeCards trimLower s activeCard ∧
        replaceActiveCardWithUnseenSameType trimLower s r =
          some (showToast { s with currentDeck := s.currentDeck.set i newCard }
            "Replaced the active card with a new unseen card of the same type.")) := by
  unfold replaceActiveCardWithUnseenSameType
  simp only [hi, arrayGet_natCast, hc, Int.toNat_ofNat]
  by_cases hnil : unseenSameTypeCards trimLower s activeCard = []
  · left
    refine ⟨hnil, ?_⟩
    rw [if_pos (by simp [hnil])]
  · right
    obtain ⟨newCard, hget, hmem⟩ := unseen_floorMul_get _ r hnil
    refine ⟨newCard, hmem, ?_⟩
    rw [if_neg (by simpa using hnil)]
    simp only [hget]

theorem cursorValid_active {s : State} (hv : cursorValid s) (hne : s.currentIndex ≠ -1) :
    ∃ (i : Nat) (card : Card), s.currentIndex = i ∧ s.currentDeck[i]? = some card := by
  obtain ⟨h1, h2⟩ := hv
  have hlt : s.currentIndex.toNat < s.currentDeck.length := by omega
  exact ⟨s.currentIndex.toNat, s.currentDeck[s.currentIndex.toNat], by omega,
    List.getElem?_eq_getElem hlt⟩

theorem cursorValid_generateDeck (s : State) (checked : String → Bool) (rnd : Nat → Rand)
    (hv : cursorValid s) : cursorValid (generateDeck s checked rnd) := by
  obtain ⟨h1, h2⟩ := hv
  unfold generateDeck
  simp only
  split_ifs
  all_goals
    simp only [cursorValid, showToast]
    constructor <;> omega

theorem cursorValid_prevCard (s : State) (hv : cursorValid s) : cursorValid (prevCard s) := by
  obtain ⟨h1, h2⟩ := hv
  unfold prevCard
  split_ifs
  all_goals
    simp only [cursorValid]
    constructor <;> omega

theorem cursorValid_nextCard (s : State) (hv : cursorValid s) : cursorValid (nextCard s) := by
  obtain ⟨h1, h2⟩ := hv
  unfold nextCard
  split_ifs
  all_goals
    simp only [cursorValid]
    constructor <;> omega

theorem cursorValid_applyCardAction (trimLower : String → String) (s : State)
    (cardAction : CardAction) (r : Rand) (hv : cursorValid s) :
    ∃ s1, applyCardAction trimLower s cardAction r = some s1 ∧ cursorValid s1 := by
  by_cases hne : s.currentIndex = -1
  · refine ⟨showToast s "No active card to apply action.", ?_, hv⟩
    unfold applyCardAction
    rw [if_pos hne]
  · obtain ⟨i, card, hi, hc⟩ := cursorValid_active hv hne
    have hlt : i < s.currentDeck.length := (List.getElem?_eq_some_iff.mp hc).1
    cases cardAction with
    | shuffleAnywhere =>
      refine ⟨_, applyCardAction_shuffleAnywhere trimLower s r i card hi hc, ?_⟩
      simp only [cursorValid, moveToPreviousCard_currentIndex, moveToPreviousCard_currentDeck,
        showToast, reinsertAt_length _ _ _ _ hlt, hi]
      split_ifs <;> constructor <;> omega
    | shuffleTopN actionN =>
      by_cases hinv : ∀ n, actionN = some n → n ≤ 0
      · refine ⟨_, applyCardAction_shuffleTopN_invalid trimLower s r actionN hinv, hv⟩
      · push_neg at hinv
        obtain ⟨n, hn, hpos⟩ := hinv
        subst hn
        by_cases hlast : i + 1 = s.currentDeck.length
        · obtain ⟨ts, hts⟩ := applyCardAction_shuffleTopN_last trimLower s r i n hi hpos hlast
          refine ⟨_, hts, ?_⟩
          simp only [cursorValid]
          split_ifs <;> constructor <;> omega
        · obtain ⟨ts, hts⟩ := applyCardAction_shuffleTopN trimLower s r i card n hi hc hpos
            (by omega)
          refine ⟨_, hts, ?_⟩
          simp only [cursorValid, reinsertAt_length _ _ _ _ hlt]
          split_ifs <;> constructor <;> omega
    | replaceSameType =>
      have heq : applyCardAction trimLower s .replaceSameType r =
          replaceActiveCardWithUnseenSameType trimLower s r := by
        unfold applyCardAction
        rw [if_neg hne]
      rw [heq]
      rcases replaceActiveCardWithUnseenSameType_eq trimLower s r i card hi hc with
        ⟨_, h⟩ | ⟨newCard, _, h⟩
      · exact ⟨_, h, hv⟩
      · refine ⟨_, h, ?_⟩
        obtain ⟨h1, h2⟩ := hv
        simp only [cursorValid, showToast, List.length_set]
        constructor <;> omega
    | other =>
      refine ⟨showToast s "Please select a valid action.", ?_, hv⟩
      unfold applyCardAction
      rw [if_neg hne]

theorem cursorValid_step (trimLower : String → String) (s : State) (op : Op)
    (hv : cursorValid s) : ∃ s1, step trimLower s op = some s1 ∧ cursorValid s1 := by
  cases op with
  | generateDeck checked rnd => exact ⟨_, rfl, cursorValid_generateDeck s checked rnd hv⟩
  | prevCard => exact ⟨_, rfl, cursorValid_prevCard s hv⟩
  | nextCard => exact ⟨_, rfl, cursorValid_nextCard s hv⟩
  | applyCardAction cardAction r => exact cursorValid_applyCardAction trimLower s cardAction r hv

theorem cursorValid_run (trimLower : String → String) (ops : List Op) (s : State)
    (hv : cursorValid s) : ∃ s1, run trimLower s ops = some s1 ∧ cursorValid s1 := by
  induction ops generalizing s with
  | nil => exact ⟨s, rfl, hv⟩
  | cons op ops ih =>
    obtain ⟨s1, hs1, hv1⟩ := cursorValid_step trimLower s op hv
    obtain ⟨s2, hs2, hv2⟩ := ih s1 hv1
    refine ⟨s2, ?_, hv2⟩
    simp only [run, hs1, Option.some_bind, hs2]

/-- C1. From any state with `currentDeck = []` and `currentIndex = -1`, every finite
sequence of `generateDeck`, `prevCard`, `nextCard` and `applyCardAction` operations (with
any action, any `n` and any random draws) runs to a state `s` with
`-1 ≤ s.currentIndex ≤ s.currentDeck.length - 1`; moreover `nextCard` at the last index
and `prevCard` at `-1` leave the state as it is. -/
theorem cursor_invariant (trimLower : String → String) (s0 : State)
    (hdeck : s0.currentDeck = []) (hidx : s0.currentIndex = -1) (ops : List Op) :
    (∃ s, run trimLower s0 ops = some s ∧
        -1 ≤ s.currentIndex ∧ s.currentIndex ≤ (s.currentDeck.length : Int) - 1) ∧
      (∀ s : State, s.currentIndex = (s.currentDeck.length : Int) - 1 → nextCard s = s) ∧
      (∀ s : State, s.currentIndex = -1 → prevCard s = s) := by
  refine ⟨?_, ?_, ?_⟩
  · have hv : cursorValid s0 := by
      simp [cursorValid, hdeck, hidx]
    exact cursorValid_run trimLower ops s0 hv
  · intro s hs
    unfold nextCard
    rw [if_neg (by omega)]
  · intro s hs
    unfold prevCard
    rw [if_neg (by omega)]

/-! ## The reinsertion actions and the refusals of `generateDeck` -/

theorem reinsertAt_succ {α : Type} (arr : List α) (i : Nat) (card next : α)
    (hnext : arr[i + 1]? = some next) :
    reinsertAt arr i (i + 1) card = arr.take i ++ next :: card :: arr.drop (i + 2) := by
  obtain ⟨hlt, hget⟩ := List.getElem?_eq_some_iff.mp hnext
  have hdrop : arr.drop (i + 1) = next :: arr.drop (i + 2) := by
    rw [← hget]
    exact List.drop_eq_getElem_cons hlt
  have hlen : (arr.take i).length = i := by
    rw [List.length_take]
    omega
  have h1 : (arr.take i).take (i + 1) = arr.take i :=
    List.take_of_length_le (by rw [hlen]; omega)
  have h2 : (arr.take i).drop (i + 1) = [] :=
    List.drop_of_length_le (by rw [hlen]; omega)
  unfold reinsertAt
  rw [hdrop, List.take_append_eq_append_take, List.drop_append_eq_append_drop, hlen, h1, h2]
  simp

/-- C4. On the deck `[A, B]` with the cursor on the last card `B`, where no card remains
after the cursor, `shuffleTopN` with `n = 1` leaves `currentDeck` as it is but moves
`currentIndex` from `1` to `0`. -/
theorem shuffleTopN_last_card_moves_cursor :
    (applyCardAction id (exampleState [cardA, cardB] 1) (.shuffleTopN (some 1)) randHalf).map
        (fun s => (s.currentDeck, s.currentIndex)) = some ([cardA, cardB], 0) ∧
      (exampleState [cardA, cardB] 1).currentIndex = 1 := by
  decide

theorem shuffleTopN_last_card (trimLower : String → String) (s : State) (r : Rand)
    (i : Nat) (n : Int) (hi : s.currentIndex = i) (hn : 0 < n)
    (hlast : i + 1 = s.currentDeck.length) :
    ∃ s1, applyCardAction trimLower s (.shuffleTopN (some n)) r = some s1 ∧
      s1.currentDeck = s.currentDeck ∧ s1.currentIndex = s.currentIndex - 1 := by
  obtain ⟨ts, hts⟩ := applyCardAction_shuffleTopN_last trimLower s r i n hi hn hlast
  refine ⟨_, hts, rfl, ?_⟩
  simp only [hi]
  split_ifs <;> omega

/-- Outside the states the page keeps, with `allCardTypes` out of step with
`availableCards`: a checked card type with an empty filtered pool, and the cursor on the
second card of the deck `[A, B]`; there `generateDeck` leaves `currentDeck` as it is and
sets `currentIndex` to `-1`. -/
theorem generateDeck_empty_pool_resets_cursor :
    ((generateDeck
          { exampleState [cardA, cardB] 1 with availableCards := [cardC], allCardTypes := ["Hero"] }
          (fun _ => true) (fun _ => randHalf)).currentDeck,
        (generateDeck
          { exampleState [cardA, cardB] 1 with availableCards := [cardC], allCardTypes := ["Hero"] }
          (fun _ => true) (fun _ => randHalf)).currentIndex) = ([cardA, cardB], -1) ∧
      filteredCards [cardC] (["Hero"].filter (fun _ => true)) = [] := by
  decide

theorem generateDeck_empty_pool (s : State) (checked : String → Bool) (rnd : Nat → Rand)
    (hgames : s.selectedGames ≠ []) (htypes : s.allCardTypes.filter checked ≠ [])
    (hpool : filteredCards s.availableCards (s.allCardTypes.filter checked) = []) :
    (generateDeck s checked rnd).currentDeck = s.currentDeck ∧
      (generateDeck s checked rnd).currentIndex = -1 := by
  unfold generateDeck
  rw [if_neg (by simpa using hgames)]
  simp only
  rw [if_neg (by simpa using htypes), if_pos (by simp [hpool])]
  exact ⟨rfl, rfl⟩

/-- C6, as stated, fails on the deck `[A, B]` with the cursor on the last card: the
insertion index is `2`, beyond `L - 1 = 1`, and no index lies strictly after the cursor. -/
theorem shuffleAnywhere_last_card_not_after :
    ¬ ReinsertedStrictlyAfter id (exampleState [cardA, cardB] 1) randHalf 1 := by
  rintro ⟨_, h, _⟩
  revert h
  decide

/-- C6, amended. For an active cursor `i` with at least one card after it
(`i + 1 < L`), `shuffleAnywhere` computes an insertion index in `(i, L - 1]` and returns a
deck holding the active card at an index `j` with `i < j ≤ L - 1`; with the cursor on the
last card (`i + 1 = L`) the insertion index is `L` and the deck comes back unchanged. -/
theorem shuffleAnywhere_reinserted_after (trimLower : String → String) (s : State) (r : Rand)
    (i : Nat) (hi : s.currentIndex = i) (hlt : i < s.currentDeck.length) :
    (i + 1 < s.currentDeck.length → ReinsertedStrictlyAfter trimLower s r i) ∧
      (i + 1 = s.currentDeck.length →
        shuffleAnywhereInsertionIndex (splice s.currentDeck s.currentIndex 1 [])
            s.currentIndex r = s.currentDeck.length ∧
          ∃ s1, applyCardAction trimLower s .shuffleAnywhere r = some s1 ∧
            s1.currentDeck = s.currentDeck) := by
  have hc : s.currentDeck[i]? = some s.currentDeck[i] := List.getElem?_eq_getElem hlt
  have happ := applyCardAction_shuffleAnywhere trimLower s r i _ hi hc
  have hlen1 : (s.currentDeck.take i ++ s.currentDeck.drop (i + 1)).length
      = s.currentDeck.length - 1 := by
    simp only [List.length_append, List.length_take, List.length_drop]
    omega
  have hb := shuffleAnywhereInsertionIndex_bounds
    (s.currentDeck.take i ++ s.currentDeck.drop (i + 1)) i r (by omega)
  rw [hlen1] at hb
  rw [hi, splice_remove] at happ
  constructor
  · intro hrem
    unfold ReinsertedStrictlyAfter
    rw [hi, splice_remove]
    have hle := hb.2.1 (by omega)
    refine ⟨by omega, by omega, _, (shuffleAnywhereInsertionIndex
      (s.currentDeck.take i ++ s.currentDeck.drop (i + 1)) i r).toNat, _, happ, hc, ?_, ?_, ?_⟩
    · omega
    · omega
    · rw [moveToPreviousCard_currentDeck]
      exact reinsertAt_getElem _ _ _ _ hlt (by omega)
  · intro hlast
    rw [hi, splice_remove]
    have heq := hb.2.2 (by omega)
    refine ⟨by omega, _, happ, ?_⟩
    rw [moveToPreviousCard_currentDeck]
    exact reinsertAt_last _ _ _ _ hc hlast (by omega)

/-- C7. For an active cursor `i` with `remaining = L - (i + 1) ≥ 1` cards after it and a
positive `n`, `shuffleTopN` returns a deck holding the active card at an index `j` with
`i + 1 ≤ j ≤ i + min n remaining`, and moves the cursor to `i - 1` if `i > 0` and to `-1`
if `i = 0`; when `min n remaining = 1` the deck is the old deck with the active card and
its successor swapped, whatever the draw; and `[A, B, C]` at cursor `1` with `n = 1`
becomes `[A, C, B]` with cursor `0`. -/
theorem shuffleTopN_within_next (trimLower : String → String) (s : State) (r : Rand)
    (i : Nat) (n : Int) (hi : s.currentIndex = i) (hrem : i + 1 < s.currentDeck.length)
    (hn : 0 < n) :
    (∃ s1 j card, applyCardAction trimLower s (.shuffleTopN (some n)) r = some s1 ∧
        s.currentDeck[i]? = some card ∧
        i + 1 ≤ j ∧ (j : Int) ≤ i + min n ((s.currentDeck.length : Int) - (i + 1)) ∧
        s1.currentDeck[j]? = some card ∧
        s1.currentIndex = (if 0 < i then (i : Int) - 1 else -1) ∧
        (min n ((s.currentDeck.length : Int) - (i + 1)) = 1 →
          ∀ next, s.currentDeck[i + 1]? = some next →
            s1.currentDeck = s.currentDeck.take i ++ next :: card :: s.currentDeck.drop (i + 2))) ∧
      (applyCardAction trimLower (exampleState [cardA, cardB, cardC] 1)
          (.shuffleTopN (some 1)) r).map (fun s1 => (s1.currentDeck, s1.currentIndex)) =
        some ([cardA, cardC, cardB], 0) := by
  constructor
  · have hlt : i < s.currentDeck.length := by omega
    have hc : s.currentDeck[i]? = some s.currentDeck[i] := List.getElem?_eq_getElem hlt
    obtain ⟨ts, hts⟩ := applyCardAction_shuffleTopN trimLower s r i _ n hi hc hn hrem
    have hb := shuffleTopNInsertionIndex_bounds i
      (min n ((s.currentDeck.length : Int) - (i + 1))) r (by omega)
    refine ⟨_, (shuffleTopNInsertionIndex i
      (min n ((s.currentDeck.length : Int) - (i + 1))) r).toNat, _, hts, hc, ?_, ?_, ?_, ?_, ?_⟩
    · omega
    · omega
    · exact reinsertAt_getElem _ _ _ _ hlt (by omega)
    · simp
    · intro hone next hnext
      have hidx : (shuffleTopNInsertionIndex i
          (min n ((s.currentDeck.length : Int) - (i + 1))) r).toNat = i + 1 := by
        rw [hone] at hb ⊢
        omega
      show reinsertAt _ _ _ _ = _
      rw [hidx]
      exact reinsertAt_succ _ _ _ _ hnext
  · obtain ⟨ts, hts⟩ := applyCardAction_shuffleTopN trimLower
      (exampleState [cardA, cardB, cardC] 1) r 1 cardB 1 rfl rfl (by decide) (by decide)
    have hb := shuffleTopNInsertionIndex_bounds 1 1 r (by decide)
    have hidx : (shuffleTopNInsertionIndex ((1 : Nat) : Int) 1 r).toNat = 2 := by omega
    rw [hts]
    simp only [Option.map_some', exampleState, List.length_cons, List.length_nil]
    have hmin : min (1 : Int) (((0 + 1 + 1 + 1 : Nat) : Int) - (((1 : Nat) : Int) + 1)) = 1 := by
      decide
    rw [hmin, hidx]
    decide

/-- C8. For an active cursor `i` of a deck of length `L`, any `n` (valid or not) and any
draw, the deck after `shuffleAnywhere` and the deck after `shuffleTopN` each have length
`L` and are permutations of the deck before the action. -/
theorem shuffle_actions_preserve_cards (trimLower : String → String) (s : State) (r : Rand)
    (i : Nat) (actionN : Option Int) (hi : s.currentIndex = i)
    (hlt : i < s.currentDeck.length) :
    (∃ s1, applyCardAction trimLower s .shuffleAnywhere r = some s1 ∧
        s1.currentDeck.length = s.currentDeck.length ∧ s1.currentDeck.Perm s.currentDeck) ∧
      (∃ s1, applyCardAction trimLower s (.shuffleTopN actionN) r = some s1 ∧
        s1.currentDeck.length = s.currentDeck.length ∧ s1.currentDeck.Perm s.currentDeck) := by
  have hc : s.currentDeck[i]? = some s.currentDeck[i] := List.getElem?_eq_getElem hlt
  constructor
  · refine ⟨_, applyCardAction_shuffleAnywhere trimLower s r i _ hi hc, ?_, ?_⟩
    · rw [moveToPreviousCard_currentDeck]
      exact reinsertAt_length _ _ _ _ hlt
    · rw [moveToPreviousCard_currentDeck]
      exact reinsertAt_perm _ _ _ _ hc
  · by_cases hinv : ∀ n, actionN = some n → n ≤ 0
    · exact ⟨_, applyCardAction_shuffleTopN_invalid trimLower s r actionN hinv, rfl,
        List.Perm.refl _⟩
    · push_neg at hinv
      obtain ⟨n, hn, hpos⟩ := hinv
      subst hn
      by_cases hlast : i + 1 = s.currentDeck.length
      · obtain ⟨ts, hts⟩ := applyCardAction_shuffleTopN_last trimLower s r i n hi hpos hlast
        exact ⟨_, hts, rfl, List.Perm.refl _⟩
      · obtain ⟨ts, hts⟩ := applyCardAction_shuffleTopN trimLower s r i _ n hi hc hpos
          (by omega)
        exact ⟨_, hts, reinsertAt_length _ _ _ _ hlt, reinsertAt_perm _ _ _ _ hc⟩

/-! ## Replacement by an unseen card of the same type -/

theorem mem_unseenSameTypeCards {trimLower : String → String} {s : State}
    {activeCard newCard : Card} (h : newCard ∈ unseenSameTypeCards trimLower s activeCard) :
    newCard ∈ s.availableCards ∧ trimLower newCard.TYPE = trimLower activeCard.TYPE ∧
      ∀ c ∈ s.currentDeck, cardId c ≠ cardId newCard := by
  simp only [unseenSameTypeCards, List.mem_filter, beq_iff_eq, Bool.not_eq_true',
    List.contains_eq_any_beq, List.any_eq_false, List.mem_map, forall_exists_index, and_imp,
    forall_apply_eq_imp_iff₂] at h
  obtain ⟨⟨h1, h2⟩, h3⟩ := h
  refine ⟨h1, h2, ?_⟩
  intro c hc heq
  have := h3 c hc
  simp [heq] at this

theorem unseenSameTypeCards_subset_candidateSetByPair (trimLower : String → String)
    (s : State) (activeCard newCard : Card)
    (h : newCard ∈ unseenSameTypeCards trimLower s activeCard) :
    newCard ∈ candidateSetByPair trimLower s activeCard := by
  obtain ⟨h1, h2, h3⟩ := mem_unseenSameTypeCards h
  simp only [candidateSetByPair, List.mem_filter, Bool.and_eq_true, beq_iff_eq,
    Bool.not_eq_true', List.any_eq_false, not_and]
  refine ⟨h1, h2, ?_⟩
  intro c hc hname hcontent
  apply h3 c hc
  simp [cardId, hname, hcontent]

/-- C9. On the deck `[cardAbC]` with `cardABc` available, a card of the same type whose
pair (name, image) differs from that of the only card of the deck, the candidate set by
pair is not empty, yet `replaceActiveCardWithUnseenSameType` emits the notice that no
unseen card is available and leaves the deck as it is: both cards have the identity
string `abc`. -/
theorem replace_refuses_unseen_candidate :
    candidateSetByPair id collisionState cardAbC = [cardABc] ∧
      replaceActiveCardWithUnseenSameType id collisionState randHalf =
        some (showToast collisionState "No unseen cards of the same type are available.") ∧
      cardId cardAbC = cardId cardABc := by
  decide

/-- C10. For an active cursor `i`, `replaceActiveCardWithUnseenSameType` returns a state,
and when that state carries the notice of a replacement, the deck length and the cursor
are unchanged, every entry at an index other than `i` is unchanged, and the entry at `i`
is an available card with the trimmed lower-cased type of the replaced card whose pair
(name, image) differs from that of every card of the deck before the call. -/
theorem replace_in_place_without_duplicate (trimLower : String → String) (s : State)
    (r : Rand) (i : Nat) (hi : s.currentIndex = i) (hlt : i < s.currentDeck.length) :
    ∃ s1, replaceActiveCardWithUnseenSameType trimLower s r = some s1 ∧
      (s1.toasts =
          s.toasts ++ ["Replaced the active card with a new unseen card of the same type."] →
        s1.currentDeck.length = s.currentDeck.length ∧
        s1.currentIndex = s.currentIndex ∧
        (∀ k, k ≠ i → s1.currentDeck[k]? = s.currentDeck[k]?) ∧
        ∃ activeCard newCard, s.currentDeck[i]? = some activeCard ∧
          s1.currentDeck[i]? = some newCard ∧
          newCard ∈ s.availableCards ∧
          trimLower newCard.TYPE = trimLower activeCard.TYPE ∧
          ∀ c ∈ s.currentDeck,
            ¬ (newCard.CARD_NAME = c.CARD_NAME ∧ newCard.Content = c.Content)) := by
  have hc : s.currentDeck[i]? = some s.currentDeck[i] := List.getElem?_eq_getElem hlt
  rcases replaceActiveCardWithUnseenSameType_eq trimLower s r i _ hi hc with
    ⟨_, h⟩ | ⟨newCard, hmem, h⟩
  · refine ⟨_, h, ?_⟩
    intro htoast
    exfalso
    simp only [showToast, List.append_cancel_left_eq, List.cons.injEq, and_true] at htoast
    revert htoast
    decide
  · refine ⟨_, h, ?_⟩
    intro _
    obtain ⟨h1, h2, h3⟩ := mem_unseenSameTypeCards hmem
    refine ⟨by simp [showToast], rfl, ?_, _, newCard, hc, ?_, h1, h2, ?_⟩
    · intro k hk
      simp only [showToast]
      rw [List.getElem?_set_ne (by omega)]
    · simp only [showToast]
      rw [List.getElem?_set_self hlt]
    · rintro c hcmem ⟨hname, hcontent⟩
      apply h3 c hcmem
      simp [cardId, hname, hcontent]

/-! ## The shuffle as a function of its draws -/

theorem swap_getElem?_of_ne {α : Type} (arr : List α) (i j m : Nat) (hi : m ≠ i) (hj : m ≠ j) :
    (swap arr i j)[m]? = arr[m]? := by
  unfold swap
  split
  · rw [List.getElem?_set_ne (Ne.symm hj), List.getElem?_set_ne (Ne.symm hi)]
  · rfl

theorem swap_getElem?_left {α : Type} (arr : List α) (i j : Nat) (hi : i < arr.length)
    (hj : j < arr.length) : (swap arr i j)[i]? = arr[j]? := by
  rw [swap_eq_of_lt arr hi hj]
  by_cases hij : j = i
  · subst hij
    rw [List.getElem?_set_self (by simpa using hj), List.getElem?_eq_getElem hj]
  · rw [List.getElem?_set_ne hij, List.getElem?_set_self hi, List.getElem?_eq_getElem hj]

theorem swap_append {α : Type} (arr tail : List α) (i j : Nat) (hi : i < arr.length)
    (hj : j < arr.length) : swap (arr ++ tail) i j = swap arr i j ++ tail := by
  have hi2 : i < (arr ++ tail).length := by
    rw [List.length_append]
    omega
  have hj2 : j < (arr ++ tail).length := by
    rw [List.length_append]
    omega
  rw [swap_eq_of_lt arr hi hj, swap_eq_of_lt (arr ++ tail) hi2 hj2]
  rw [List.getElem_append_left hi, List.getElem_append_left hj, List.set_append_left _ _ hi,
    List.set_append_left _ _ (by simpa using hj)]

theorem shuffleLoop_length {α : Type} (draw : Nat → Nat) (i : Nat) (deck : List α) :
    (shuffleLoop draw i deck).length = deck.length :=
  (shuffleLoop_perm draw i deck).length_eq

theorem shuffleLoop_congr {α : Type} (draw1 draw2 : Nat → Nat) (i : Nat) (deck : List α)
    (h : ∀ k, 1 ≤ k → k ≤ i → draw1 k = draw2 k) :
    shuffleLoop draw1 i deck = shuffleLoop draw2 i deck := by
  induction i generalizing deck with
  | zero => rfl
  | succ i ih =>
    simp only [shuffleLoop]
    rw [h (i + 1) (by omega) (by omega)]
    exact ih _ (fun k h1 h2 => h k h1 (by omega))

theorem shuffleLoop_getElem?_above {α : Type} (draw : Nat → Nat) (i : Nat) (deck : List α)
    (h : ∀ k, 1 ≤ k → k ≤ i → draw k ≤ k) (m : Nat) (hm : i < m) :
    (shuffleLoop draw i deck)[m]? = deck[m]? := by
  induction i generalizing deck with
  | zero => rfl
  | succ i ih =>
    simp only [shuffleLoop]
    rw [ih _ (fun k h1 h2 => h k h1 (by omega)) (by omega)]
    have := h (i + 1) (by omega) (by omega)
    exact swap_getElem?_of_ne _ _ _ _ (by omega) (by omega)

theorem shuffleLoop_append {α : Type} (draw : Nat → Nat) (i : Nat) (deck tail : List α)
    (h : ∀ k, 1 ≤ k → k ≤ i → draw k ≤ k) (hlen : i < deck.length) :
    shuffleLoop draw i (deck ++ tail) = shuffleLoop draw i deck ++ tail := by
  induction i generalizing deck with
  | zero => rfl
  | succ i ih =>
    simp only [shuffleLoop]
    have hd := h (i + 1) (by omega) (by omega)
    rw [swap_append deck tail (i + 1) (draw (i + 1)) hlen (by omega)]
    exact ih _ (fun k h1 h2 => h k h1 (by omega)) (by rw [swap_length]; omega)

theorem shuffleLoop_draws_unique {α : Type} (draw1 draw2 : Nat → Nat) (i : Nat)
    (deck : List α) (hnd : deck.Nodup) (hlen : i < deck.length)
    (h1 : ∀ k, 1 ≤ k → k ≤ i → draw1 k ≤ k) (h2 : ∀ k, 1 ≤ k → k ≤ i → draw2 k ≤ k)
    (heq : shuffleLoop draw1 i deck = shuffleLoop draw2 i deck) :
    ∀ k, 1 ≤ k → k ≤ i → draw1 k = draw2 k := by
  induction i generalizing deck with
  | zero =>
    intro k hk1 hk2
    omega
  | succ i ih =>
    have hd1 := h1 (i + 1) (by omega) (by omega)
    have hd2 := h2 (i + 1) (by omega) (by omega)
    simp only [shuffleLoop] at heq
    have hlast : draw1 (i + 1) = draw2 (i + 1) := by
      have e1 := shuffleLoop_getElem?_above draw1 i (swap deck (i + 1) (draw1 (i + 1)))
        (fun k a b => h1 k a (by omega)) (i + 1) (by omega)
      have e2 := shuffleLoop_getElem?_above draw2 i (swap deck (i + 1) (draw2 (i + 1)))
        (fun k a b => h2 k a (by omega)) (i + 1) (by omega)
      rw [swap_getElem?_left deck _ _ hlen (by omega)] at e1 e2
      rw [heq, e2] at e1
      rw [List.getElem?_eq_getElem (show draw1 (i + 1) < deck.length by omega),
        List.getElem?_eq_getElem (show draw2 (i + 1) < deck.length by omega)] at e1
      exact ((hnd.getElem_inj_iff).mp (Option.some.inj e1)).symm
    intro k hk1 hk2
    by_cases hk : k = i + 1
    · rw [hk]
      exact hlast
    · rw [← hlast] at heq
      exact ih (swap deck (i + 1) (draw1 (i + 1)))
        (((swap_perm deck _ _).nodup_iff).mpr hnd) (by rw [swap_length]; omega)
        (fun k a b => h1 k a (by omega)) (fun k a b => h2 k a (by omega)) heq k hk1 (by omega)

theorem shuffleLoop_draws_exist {α : Type} (i : Nat) (deck p : List α)
    (hlen : deck.length = i + 1) (hp : p.Perm deck) :
    ∃ draw : Nat → Nat, (∀ k, draw k ≤ k) ∧ shuffleLoop draw i deck = p := by
  induction i generalizing deck p with
  | zero =>
    refine ⟨fun _ => 0, fun k => Nat.zero_le k, ?_⟩
    obtain ⟨a, rfl⟩ := List.length_eq_one.mp hlen
    exact (List.perm_singleton.mp hp).symm
  | succ i ih =>
    have hplen : p.length = i + 2 := hp.length_eq.trans hlen
    have hmem : p[i + 1] ∈ deck := hp.mem_iff.mp (List.getElem_mem (by omega))
    obtain ⟨m, hm, hget⟩ := List.getElem_of_mem hmem
    have hswaplen : (swap deck (i + 1) m).length = i + 2 := by rw [swap_length, hlen]
    have hswaplast : (swap deck (i + 1) m)[i + 1]? = some p[i + 1] := by
      rw [swap_getElem?_left deck _ _ (by omega) hm, List.getElem?_eq_getElem hm, hget]
    have hsplit1 : swap deck (i + 1) m = (swap deck (i + 1) m).take (i + 1) ++ [p[i + 1]] := by
      conv_lhs => rw [← List.take_append_drop (i + 1) (swap deck (i + 1) m)]
      congr 1
      have hlt : i + 1 < (swap deck (i + 1) m).length := by omega
      rw [List.drop_eq_getElem_cons hlt, List.drop_of_length_le (by omega)]
      rw [List.getElem?_eq_getElem hlt] at hswaplast
      rw [Option.some.inj hswaplast]
    have hsplit2 : p = p.take (i + 1) ++ [p[i + 1]] := by
      conv_lhs => rw [← List.take_append_drop (i + 1) p]
      congr 1
      rw [List.drop_eq_getElem_cons (show i + 1 < p.length by omega),
        List.drop_of_length_le (by omega)]
    have hperm : (p.take (i + 1)).Perm ((swap deck (i + 1) m).take (i + 1)) := by
      have h0 : p.Perm (swap deck (i + 1) m) := hp.trans (swap_perm deck _ _).symm
      rw [hsplit1] at h0
      conv at h0 => lhs; rw [hsplit2]
      exact (List.perm_append_right_iff _).mp h0
    obtain ⟨draw0, hdraw0, hloop⟩ := ih ((swap deck (i + 1) m).take (i + 1)) (p.take (i + 1))
      (by rw [List.length_take]; omega) hperm
    refine ⟨fun k => if k = i + 1 then m else draw0 k, ?_, ?_⟩
    · intro k
      by_cases hk : k = i + 1
      · simp only [hk, if_true]
        omega
      · simp only [hk, if_false]
        exact hdraw0 k
    · simp only [shuffleLoop, if_true]
      rw [shuffleLoop_congr _ draw0 i _ (fun k h1 h2 => by
        simp only [show k ≠ i + 1 by omega, if_false])]
      rw [hsplit1, shuffleLoop_append draw0 i _ _ (fun k _ _ => hdraw0 k)
        (by rw [List.length_take]; omega)]
      rw [hloop]
      exact hsplit2.symm

theorem Draws.draw_le {n : Nat} (js : Draws n) (i : Nat) : js.draw i ≤ i := by
  unfold Draws.draw
  split
  · rename_i h
    have := (js ⟨i - 1, by omega⟩).isLt
    simp only at this
    omega
  · exact Nat.zero_le i

theorem Draws.draw_succ {n : Nat} (js : Draws n) (k : Fin (n - 1)) :
    js.draw (k.val + 1) = (js k).val := by
  have hk := k.isLt
  unfold Draws.draw
  rw [dif_pos (by omega)]
  rfl

theorem Draws.ext_draw {n : Nat} (js1 js2 : Draws n)
    (h : ∀ i, 1 ≤ i → i ≤ n - 1 → js1.draw i = js2.draw i) : js1 = js2 := by
  funext k
  apply Fin.ext
  have hk := k.isLt
  rw [← Draws.draw_succ js1 k, ← Draws.draw_succ js2 k]
  exact h (k.val + 1) (by omega) (by omega)

theorem prod_range_add_two (m : Nat) : ∏ k ∈ Finset.range m, (k + 2) = (m + 1).factorial := by
  induction m with
  | zero => rfl
  | succ m ih =>
    rw [Finset.prod_range_succ, ih, Nat.factorial_succ (m + 1)]
    ring

theorem card_draws (n : Nat) : Fintype.card (Draws n) = n.factorial := by
  show Fintype.card ((k : Fin (n - 1)) → Fin (k.val + 2)) = n.factorial
  rw [Fintype.card_pi]
  simp only [Fintype.card_fin]
  rw [Fin.prod_univ_eq_prod_range (fun k => k + 2) (n - 1), prod_range_add_two]
  cases n with
  | zero => rfl
  | succ n => rfl

/-- The draw sequence made of the draws `draw 1`, ..., `draw (n - 1)`. -/
theorem exists_draws_of_fun (n : Nat) (draw : Nat → Nat) (h : ∀ k, draw k ≤ k) :
    ∃ js : Draws n, ∀ i, 1 ≤ i → i ≤ n - 1 → js.draw i = draw i := by
  refine ⟨fun k => ⟨draw (k.val + 1), by have := h (k.val + 1); omega⟩, ?_⟩
  intro i h1 h2
  unfold Draws.draw
  rw [dif_pos ⟨h1, h2⟩]
  simp only
  congr 1
  omega

theorem exists_rnd_of_draws {n : Nat} (js : Draws n) :
    ∃ rnd : Nat → Rand, ∀ i, i ≤ n - 1 → drawAt rnd n i = js.draw i := by
  refine ⟨fun c => ⟨js.draw (n - 1 - c), n - 1 - c + 1, by
    have := js.draw_le (n - 1 - c)
    omega⟩, ?_⟩
  intro i hi
  unfold drawAt Rand.floorMul
  simp only
  have hidx : n - 1 - (n - 1 - i) = i := by omega
  rw [hidx]
  have hcast : ((i + 1 : Nat) : Int) = (i : Int) + 1 := by push_cast; rfl
  rw [hcast, Int.mul_ediv_cancel _ (by omega)]
  rfl

/-- C3. For a deck of `n` pairwise distinct cards, `shuffleDeck` as a function of its draw
sequence (a draw `j ≤ i` for each loop index `i` from `n - 1` down to `1`) always returns
an ordering of the deck, every ordering of the deck is returned for exactly one draw
sequence, and there are `n!` draw sequences; the draw sequences are exactly what the
calls of `Math.random()` in `shuffleDeck` can produce. -/
theorem shuffleDeck_bijective {α : Type} (deck : List α) (hnd : deck.Nodup) :
    (∀ js : Draws deck.length, (shuffleWith deck js).Perm deck) ∧
      (∀ p : List α, p.Perm deck → ∃! js : Draws deck.length, shuffleWith deck js = p) ∧
      Fintype.card (Draws deck.length) = deck.length.factorial ∧
      (∀ rnd : Nat → Rand, ∃ js : Draws deck.length, shuffleDeck deck rnd = shuffleWith deck js) ∧
      (∀ js : Draws deck.length, ∃ rnd : Nat → Rand,
        shuffleDeck deck rnd = shuffleWith deck js) := by
  refine ⟨fun js => shuffleLoop_perm _ _ _, ?_, card_draws _, ?_, ?_⟩
  · intro p hp
    have hex : ∃ draw : Nat → Nat, (∀ k, draw k ≤ k) ∧
        shuffleLoop draw (deck.length - 1) deck = p := by
      rcases Nat.eq_zero_or_pos deck.length with h0 | hpos
      · have hnil : deck = [] := List.eq_nil_of_length_eq_zero h0
        subst hnil
        exact ⟨fun _ => 0, fun k => Nat.zero_le k, (List.perm_nil.mp hp).symm⟩
      · exact shuffleLoop_draws_exist (deck.length - 1) deck p (by omega) hp
    obtain ⟨draw, hdraw, hloop⟩ := hex
    obtain ⟨js, hjs⟩ := exists_draws_of_fun deck.length draw hdraw
    refine ⟨js, ?_, ?_⟩
    · show shuffleLoop js.draw (deck.length - 1) deck = p
      rw [shuffleLoop_congr js.draw draw _ _ hjs]
      exact hloop
    · intro js2 hjs2
      apply Draws.ext_draw
      rcases Nat.eq_zero_or_pos deck.length with h0 | hpos
      · intro i h1 h2
        omega
      · have heq : shuffleLoop js2.draw (deck.length - 1) deck =
            shuffleLoop js.draw (deck.length - 1) deck := by
          rw [shuffleLoop_congr js.draw draw _ _ hjs, hloop]
          exact hjs2
        exact shuffleLoop_draws_unique js2.draw js.draw (deck.length - 1) deck hnd (by omega)
          (fun k _ _ => js2.draw_le k) (fun k _ _ => js.draw_le k) heq
  · intro rnd
    obtain ⟨js, hjs⟩ := exists_draws_of_fun deck.length (drawAt rnd deck.length)
      (drawAt_le rnd deck.length)
    exact ⟨js, (shuffleLoop_congr js.draw _ _ _ hjs).symm⟩
  · intro js
    obtain ⟨rnd, hrnd⟩ := exists_rnd_of_draws js
    exact ⟨rnd, shuffleLoop_congr _ _ _ _ (fun i _ h2 => hrnd i h2)⟩

/-! ## Concrete instances -/

/-- Witness of C1: three operations from the empty deck of the example catalog. -/
theorem cursor_invariant_witness :
    (exampleState [] (-1)).currentDeck = [] ∧ (exampleState [] (-1)).currentIndex = -1 ∧
      ∃ s, run id (exampleState [] (-1))
          [.generateDeck (fun _ => true) (fun _ => randHalf), .nextCard,
            .applyCardAction .shuffleAnywhere randHalf] = some s ∧
        -1 ≤ s.currentIndex ∧ s.currentIndex ≤ (s.currentDeck.length : Int) - 1 :=
  ⟨rfl, rfl, (cursor_invariant id (exampleState [] (-1)) rfl rfl _).1⟩

/-- Witness of C2: the example catalog with only the type `Hero` checked. -/
theorem generateDeck_permutation_witness :
    (exampleState [] (-1)).selectedGames ≠ [] ∧
      filteredCards (exampleState [] (-1)).availableCards
        ((exampleState [] (-1)).allCardTypes.filter (fun t => t == "Hero")) ≠ [] ∧
      (generateDeck (exampleState [] (-1)) (fun t => t == "Hero")
          (fun _ => randHalf)).currentDeck.Perm
        (filteredCards (exampleState [] (-1)).availableCards
          ((exampleState [] (-1)).allCardTypes.filter (fun t => t == "Hero"))) ∧
      (generateDeck (exampleState [] (-1)) (fun t => t == "Hero")
          (fun _ => randHalf)).currentIndex = -1 :=
  ⟨by decide, by decide,
    (generateDeck_permutation (exampleState [] (-1)) (fun t => t == "Hero") (fun _ => randHalf)
      (by decide) (by decide)).2.1,
    (generateDeck_permutation (exampleState [] (-1)) (fun t => t == "Hero") (fun _ => randHalf)
      (by decide) (by decide)).2.2.2⟩

/-- Witness of C3: the three cards of the example catalog. -/
theorem shuffleDeck_bijective_witness :
    [cardA, cardB, cardC].Nodup ∧
      ∀ p : List Card, p.Perm [cardA, cardB, cardC] →
        ∃! js : Draws [cardA, cardB, cardC].length, shuffleWith [cardA, cardB, cardC] js = p :=
  ⟨by decide, (shuffleDeck_bijective [cardA, cardB, cardC] (by decide)).2.1⟩

/-- Witness of C6 as amended: the first card of `[A, B, C]`. -/
theorem shuffleAnywhere_reinserted_after_witness :
    (exampleState [cardA, cardB, cardC] 0).currentIndex = ((0 : Nat) : Int) ∧
      0 < (exampleState [cardA, cardB, cardC] 0).currentDeck.length ∧
      0 + 1 < (exampleState [cardA, cardB, cardC] 0).currentDeck.length ∧
      ReinsertedStrictlyAfter id (exampleState [cardA, cardB, cardC] 0) randHalf 0 :=
  ⟨rfl, by decide, by decide,
    (shuffleAnywhere_reinserted_after id (exampleState [cardA, cardB, cardC] 0) randHalf 0 rfl
      (by decide)).1 (by decide)⟩

/-- Witness of C7: the end-to-end example of §8. -/
theorem shuffleTopN_within_next_witness :
    (exampleState [cardA, cardB, cardC] 1).currentIndex = ((1 : Nat) : Int) ∧
      1 + 1 < (exampleState [cardA, cardB, cardC] 1).currentDeck.length ∧
      (0 : Int) < 1 ∧
      (applyCardAction id (exampleState [cardA, cardB, cardC] 1)
          (.shuffleTopN (some 1)) randHalf).map (fun s1 => (s1.currentDeck, s1.currentIndex)) =
        some ([cardA, cardC, cardB], 0) :=
  ⟨rfl, by decide, by decide,
    (shuffleTopN_within_next id (exampleState [cardA, cardB, cardC] 1) randHalf 1 1 rfl
      (by decide) (by decide)).2⟩

/-- Witness of C8: the second card of `[A, B, C]` with `n = 2`. -/
theorem shuffle_actions_preserve_cards_witness :
    (exampleState [cardA, cardB, cardC] 1).currentIndex = ((1 : Nat) : Int) ∧
      1 < (exampleState [cardA, cardB, cardC] 1).currentDeck.length ∧
      (∃ s1, applyCardAction id (exampleState [cardA, cardB, cardC] 1) .shuffleAnywhere
          randHalf = some s1 ∧
        s1.currentDeck.length = (exampleState [cardA, cardB, cardC] 1).currentDeck.length ∧
        s1.currentDeck.Perm (exampleState [cardA, cardB, cardC] 1).currentDeck) ∧
      (∃ s1, applyCardAction id (exampleState [cardA, cardB, cardC] 1) (.shuffleTopN (some 2))
          randHalf = some s1 ∧
        s1.currentDeck.length = (exampleState [cardA, cardB, cardC] 1).currentDeck.length ∧
        s1.currentDeck.Perm (exampleState [cardA, cardB, cardC] 1).currentDeck) :=
  ⟨rfl, by decide,
    shuffle_actions_preserve_cards id (exampleState [cardA, cardB, cardC] 1) randHalf 1
      (some 2) rfl (by decide)⟩

/-- Witness of C10: the deck `[A]` over the example catalog, where `B` is the only unseen
card of type `Hero`; the call replaces `A` and emits the notice of a replacement. -/
theorem replace_in_place_without_duplicate_witness :
    (exampleState [cardA] 0).currentIndex = ((0 : Nat) : Int) ∧
      0 < (exampleState [cardA] 0).currentDeck.length ∧
      replaceActiveCardWithUnseenSameType id (exampleState [cardA] 0) randHalf =
        some (showToast (exampleState [cardB] 0)
          "Replaced the active card with a new unseen card of the same type.") ∧
      ∃ s1, replaceActiveCardWithUnseenSameType id (exampleState [cardA] 0) randHalf = some s1 ∧
        (s1.toasts = (exampleState [cardA] 0).toasts ++
            ["Replaced the active card with a new unseen card of the same type."] →
          s1.currentDeck.length = (exampleState [cardA] 0).currentDeck.length ∧
          s1.currentIndex = (exampleState [cardA] 0).currentIndex ∧
          (∀ k, k ≠ 0 → s1.currentDeck[k]? = (exampleState [cardA] 0).currentDeck[k]?) ∧
          ∃ activeCard newCard, (exampleState [cardA] 0).currentDeck[0]? = some activeCard ∧
            s1.currentDeck[0]? = some newCard ∧
            newCard ∈ (exampleState [cardA] 0).availableCards ∧
            id newCard.TYPE = id activeCard.TYPE ∧
            ∀ c ∈ (exampleState [cardA] 0).currentDeck,
              ¬ (newCard.CARD_NAME = c.CARD_NAME ∧ newCard.Content = c.Content)) :=
  ⟨rfl, by decide, by decide,
    replace_in_place_without_duplicate id (exampleState [cardA] 0) randHalf 0 rfl (by decide)⟩

/-! ## Frame of the reinsertion actions -/

theorem reinsertAt_frame {α : Type} (arr : List α) (i j : Nat) (card : α)
    (hc : arr[i]? = some card) (hj : i < j) :
    ∃ m, i ≤ m ∧ (∀ k, k < i → (reinsertAt arr i j card)[k]? = arr[k]?) ∧
      (reinsertAt arr i j card)[m]? = some card ∧
      (reinsertAt arr i j card).eraseIdx m = arr.eraseIdx i := by
  obtain ⟨hlt, _⟩ := List.getElem?_eq_some_iff.mp hc
  have hbelow : ∀ k, k < i → (arr.take i ++ arr.drop (i + 1))[k]? = arr[k]? := by
    intro k hk
    rw [List.getElem?_append_left (by rw [List.length_take]; omega),
      List.getElem?_take_of_lt hk]
  have hrlen : (arr.take i ++ arr.drop (i + 1)).length = arr.length - 1 := by
    simp only [List.length_append, List.length_take, List.length_drop]
    omega
  rw [List.eraseIdx_eq_take_drop_succ arr i]
  unfold reinsertAt
  generalize arr.take i ++ arr.drop (i + 1) = rest at hbelow hrlen
  have hl : (rest.take j).length = min j rest.length := List.length_take _ _
  refine ⟨min j rest.length, by omega, ?_, ?_, ?_⟩
  · intro k hk
    rw [List.append_assoc, List.getElem?_append_left (by omega),
      List.getElem?_take_of_lt (by omega), hbelow k hk]
  · rw [List.append_assoc, List.getElem?_append_right (by omega), hl]
    simp
  · rw [List.append_assoc, List.eraseIdx_append_of_length_le (by omega), hl]
    simp

/-- C11. For an active cursor `i`, any `n` (valid or not) and any draw, the deck after
`shuffleAnywhere` and the deck after `shuffleTopN` each agree with the deck before the
action at every index below `i`, hold the active card at some index `j ≥ i`, and give,
once the entry at `j` is deleted, exactly the deck before the action with the entry at
`i` deleted. -/
theorem shuffle_actions_frame (trimLower : String → String) (s : State) (r : Rand)
    (i : Nat) (actionN : Option Int) (hi : s.currentIndex = i)
    (hlt : i < s.currentDeck.length) :
    (∃ s1 j, applyCardAction trimLower s .shuffleAnywhere r = some s1 ∧ i ≤ j ∧
        (∀ k, k < i → s1.currentDeck[k]? = s.currentDeck[k]?) ∧
        s1.currentDeck[j]? = s.currentDeck[i]? ∧
        s1.currentDeck.eraseIdx j = s.currentDeck.eraseIdx i) ∧
      (∃ s1 j, applyCardAction trimLower s (.shuffleTopN actionN) r = some s1 ∧ i ≤ j ∧
        (∀ k, k < i → s1.currentDeck[k]? = s.currentDeck[k]?) ∧
        s1.currentDeck[j]? = s.currentDeck[i]? ∧
        s1.currentDeck.eraseIdx j = s.currentDeck.eraseIdx i) := by
  have hc : s.currentDeck[i]? = some s.currentDeck[i] := List.getElem?_eq_getElem hlt
  constructor
  · have happ := applyCardAction_shuffleAnywhere trimLower s r i _ hi hc
    have hb := shuffleAnywhereInsertionIndex_bounds
      (s.currentDeck.take i ++ s.currentDeck.drop (i + 1)) i r (by
        simp only [List.length_append, List.length_take, List.length_drop]
        omega)
    rw [hi, splice_remove] at happ
    obtain ⟨m, hm, hbelow, hat, herase⟩ := reinsertAt_frame s.currentDeck i
      (shuffleAnywhereInsertionIndex
        (s.currentDeck.take i ++ s.currentDeck.drop (i + 1)) i r).toNat
      s.currentDeck[i] hc (by omega)
    refine ⟨_, m, happ, hm, ?_, ?_, ?_⟩
    · rw [moveToPreviousCard_currentDeck]
      exact hbelow
    · rw [moveToPreviousCard_currentDeck, hc]
      exact hat
    · rw [moveToPreviousCard_currentDeck]
      exact herase
  · by_cases hinv : ∀ n, actionN = some n → n ≤ 0
    · exact ⟨_, i, applyCardAction_shuffleTopN_invalid trimLower s r actionN hinv,
        Nat.le_refl i, fun _ _ => rfl, rfl, rfl⟩
    · push_neg at hinv
      obtain ⟨n, hn, hpos⟩ := hinv
      subst hn
      by_cases hlast : i + 1 = s.currentDeck.length
      · obtain ⟨ts, hts⟩ := applyCardAction_shuffleTopN_last trimLower s r i n hi hpos hlast
        exact ⟨_, i, hts, Nat.le_refl i, fun _ _ => rfl, rfl, rfl⟩
      · obtain ⟨ts, hts⟩ := applyCardAction_shuffleTopN trimLower s r i _ n hi hc hpos
          (by omega)
        have hb := shuffleTopNInsertionIndex_bounds i
          (min n ((s.currentDeck.length : Int) - (i + 1))) r (by omega)
        obtain ⟨m, hm, hbelow, hat, herase⟩ := reinsertAt_frame s.currentDeck i
          (shuffleTopNInsertionIndex i
            (min n ((s.currentDeck.length : Int) - (i + 1))) r).toNat
          s.currentDeck[i] hc (by omega)
        exact ⟨_, m, hts, hm, hbelow, hc ▸ hat, herase⟩

/-- Witness of C11: the second card of `[A, B, C]` with `n = 2`. -/
theorem shuffle_actions_frame_witness :
    (exampleState [cardA, cardB, cardC] 1).currentIndex = ((1 : Nat) : Int) ∧
      1 < (exampleState [cardA, cardB, cardC] 1).currentDeck.length ∧
      (∃ s1 j, applyCardAction id (exampleState [cardA, cardB, cardC] 1) .shuffleAnywhere
          randHalf = some s1 ∧ 1 ≤ j ∧
        (∀ k, k < 1 →
          s1.currentDeck[k]? = (exampleState [cardA, cardB, cardC] 1).currentDeck[k]?) ∧
        s1.currentDeck[j]? = (exampleState [cardA, cardB, cardC] 1).currentDeck[1]? ∧
        s1.currentDeck.eraseIdx j =
          (exampleState [cardA, cardB, cardC] 1).currentDeck.eraseIdx 1) ∧
      (∃ s1 j, applyCardAction id (exampleState [cardA, cardB, cardC] 1)
          (.shuffleTopN (some 2)) randHalf = some s1 ∧ 1 ≤ j ∧
        (∀ k, k < 1 →
          s1.currentDeck[k]? = (exampleState [cardA, cardB, cardC] 1).currentDeck[k]?) ∧
        s1.currentDeck[j]? = (exampleState [cardA, cardB, cardC] 1).currentDeck[1]? ∧
        s1.currentDeck.eraseIdx j =
          (exampleState [cardA, cardB, cardC] 1).currentDeck.eraseIdx 1) :=
  ⟨rfl, by decide,
    shuffle_actions_frame id (exampleState [cardA, cardB, cardC] 1) randHalf 1 (some 2) rfl
      (by decide)⟩

/-! ## Card types in step with the available cards, and the refusals of `generateDeck` -/

theorem mem_setAdd {set : List String} {value t : String} (h : t ∈ setAdd set value) :
    t ∈ set ∨ t = value := by
  unfold setAdd at h
  split at h
  · exact Or.inl h
  · rcases List.mem_append.mp h with h1 | h1
    · exact Or.inl h1
    · exact Or.inr (List.mem_singleton.mp h1)

theorem mem_cardTypesSet (cards : List Card) (init : List String) (t : String)
    (h : t ∈ cards.foldl (fun set card => setAdd set card.TYPE) init) :
    t ∈ init ∨ ∃ card ∈ cards, card.TYPE = t := by
  induction cards generalizing init with
  | nil => exact Or.inl h
  | cons card cards ih =>
    rw [List.foldl_cons] at h
    rcases ih _ h with h1 | ⟨c, hc, hct⟩
    · rcases mem_setAdd h1 with h2 | h2
      · exact Or.inl h2
      · exact Or.inr ⟨card, List.mem_cons_self _ _, h2.symm⟩
    · exact Or.inr ⟨c, List.mem_cons_of_mem _ hc, hct⟩

theorem typesInStep_generateCardTypeSelection (sort : List String → List String)
    (hsort : ∀ l t, t ∈ sort l → t ∈ l) (s : State) :
    typesInStep (generateCardTypeSelection sort s) := by
  have hall : ∀ t ∈ sort (s.availableCards.foldl (fun set card => setAdd set card.TYPE) []),
      ∃ card ∈ s.availableCards, card.TYPE = t := by
    intro t ht
    rcases mem_cardTypesSet _ _ _ (hsort _ _ ht) with h1 | h1
    · cases h1
    · exact h1
  unfold generateCardTypeSelection
  simp only
  split
  · exact hall
  · exact hall

theorem typesInStep_of_eq {s s1 : State} (hs : typesInStep s)
    (h1 : s1.availableCards = s.availableCards) (h2 : s1.allCardTypes = s.allCardTypes) :
    typesInStep s1 := by
  unfold typesInStep
  rw [h1, h2]
  exact hs

theorem typesInStep_generateDeck (s : State) (checked : String → Bool) (rnd : Nat → Rand)
    (hs : typesInStep s) : typesInStep (generateDeck s checked rnd) := by
  apply typesInStep_of_eq hs
  · unfold generateDeck
    simp only
    split_ifs <;> rfl
  · unfold generateDeck
    simp only
    split_ifs <;> rfl

theorem typesInStep_prevCard (s : State) (hs : typesInStep s) : typesInStep (prevCard s) := by
  apply typesInStep_of_eq hs
  · unfold prevCard
    split_ifs <;> rfl
  · unfold prevCard
    split_ifs <;> rfl

theorem typesInStep_nextCard (s : State) (hs : typesInStep s) : typesInStep (nextCard s) := by
  apply typesInStep_of_eq hs
  · unfold nextCard
    split_ifs <;> rfl
  · unfold nextCard
    split_ifs <;> rfl

theorem filteredCards_ne_nil_of_checked (s : State) (checked : String → Bool)
    (hs : typesInStep s) (htypes : s.allCardTypes.filter checked ≠ []) :
    filteredCards s.availableCards (s.allCardTypes.filter checked) ≠ [] := by
  obtain ⟨t, ht⟩ := List.exists_mem_of_ne_nil _ htypes
  obtain ⟨card, hcard, hty⟩ := hs t (List.mem_filter.mp ht).1
  intro hnil
  have hmem : card ∈ filteredCards s.availableCards (s.allCardTypes.filter checked) := by
    unfold filteredCards
    rw [List.mem_filter]
    refine ⟨hcard, ?_⟩
    rw [List.contains_iff_exists_mem_beq]
    exact ⟨t, ht, by simp [hty]⟩
  rw [hnil] at hmem
  cases hmem

/-- C5. In every state the page keeps (`typesInStep`), whenever the pool of available
cards filtered by the checked card types is empty, `generateDeck` refuses: it emits one
notice and `currentDeck` and `currentIndex` keep the values they had before the call.
In such a state an empty pool means that no card type is checked, so the refusal for an
empty pool with a checked card type is never reached. -/
theorem generateDeck_refusal_keeps_state (s : State) (checked : String → Bool)
    (rnd : Nat → Rand) (hstep : typesInStep s)
    (hpool : filteredCards s.availableCards (s.allCardTypes.filter checked) = []) :
    (generateDeck s checked rnd).currentDeck = s.currentDeck ∧
      (generateDeck s checked rnd).currentIndex = s.currentIndex ∧
      (∃ message, (generateDeck s checked rnd).toasts = s.toasts ++ [message]) ∧
      s.allCardTypes.filter checked = [] := by
  have htypes : s.allCardTypes.filter checked = [] := by
    by_contra hne
    exact filteredCards_ne_nil_of_checked s checked hstep hne hpool
  refine ⟨?_, ?_, ?_, htypes⟩
  all_goals
    unfold generateDeck
    by_cases hgames : s.selectedGames.length = 0
    · rw [if_pos hgames]
      first | rfl | exact ⟨_, rfl⟩
    · rw [if_neg hgames]
      simp only
      rw [if_pos (by simp [htypes])]
      first | rfl | exact ⟨_, rfl⟩

/-- Witness of C5: the example catalog with the cursor on `B` and no card type checked. -/
theorem generateDeck_refusal_keeps_state_witness :
    typesInStep (exampleState [cardA, cardB] 1) ∧
      filteredCards (exampleState [cardA, cardB] 1).availableCards
        ((exampleState [cardA, cardB] 1).allCardTypes.filter (fun _ => false)) = [] ∧
      (generateDeck (exampleState [cardA, cardB] 1) (fun _ => false)
          (fun _ => randHalf)).currentDeck = (exampleState [cardA, cardB] 1).currentDeck ∧
      (generateDeck (exampleState [cardA, cardB] 1) (fun _ => false)
          (fun _ => randHalf)).currentIndex = (exampleState [cardA, cardB] 1).currentIndex :=
  ⟨by unfold typesInStep; decide, by decide,
    (generateDeck_refusal_keeps_state (exampleState [cardA, cardB] 1) (fun _ => false)
      (fun _ => randHalf) (by unfold typesInStep; decide) (by decide)).1,
    (generateDeck_refusal_keeps_state (exampleState [cardA, cardB] 1) (fun _ => false)
      (fun _ => randHalf) (by unfold typesInStep; decide) (by decide)).2.1⟩

theorem applyCardAction_keeps_types (trimLower : String → String) (s s1 : State)
    (cardAction : CardAction) (r : Rand)
    (h : applyCardAction trimLower s cardAction r = some s1) :
    s1.availableCards = s.availableCards ∧ s1.allCardTypes = s.allCardTypes := by
  simp only [applyCardAction, replaceActiveCardWithUnseenSameType, moveToPreviousCard_eq,
    showToast] at h
  repeat' split at h
  all_goals first
    | (cases h; exact ⟨rfl, rfl⟩)
    | cases h

theorem typesInStep_step (trimLower : String → String) (s s1 : State) (op : Op)
    (hs : typesInStep s) (h : step trimLower s op = some s1) : typesInStep s1 := by
  cases op with
  | generateDeck checked rnd =>
    cases h
    exact typesInStep_generateDeck s checked rnd hs
  | prevCard =>
    cases h
    exact typesInStep_prevCard s hs
  | nextCard =>
    cases h
    exact typesInStep_nextCard s hs
  | applyCardAction cardAction r =>
    obtain ⟨h1, h2⟩ := applyCardAction_keeps_types trimLower s s1 cardAction r h
    exact typesInStep_of_eq hs h1 h2

theorem typesInStep_run (trimLower : String → String) (ops : List Op) (s s1 : State)
    (hs : typesInStep s) (h : run trimLower s ops = some s1) : typesInStep s1 := by
  induction ops generalizing s with
  | nil =>
    cases h
    exact hs
  | cons op ops ih =>
    simp only [run] at h
    cases hstep : step trimLower s op with
    | none =>
      rw [hstep] at h
      cases h
    | some s2 =>
      rw [hstep] at h
      exact ih s2 (typesInStep_step trimLower s s2 op hs hstep) h

end DeckBuilder
